import Mathlib

/-!
Shallow embedding of the step-scan engine of pyepics/stepscan
(`lib/scan.py`, class `StepScan`) and of the info-table access layer of
`lib/scandb.py` (`get_info` / `set_info`).

Modelling conventions:
* The external state store (a database read by `look_for_interrupts`) is a
  stream `Nat → Flags`: the k-th call of `look_for_interrupts` during a run
  returns the k-th element of the stream.
* Hardware is an oracle: `posPolls a` is the number of iterations of the
  positioner wait loop taken on attempt `a` (the loop is bounded in the
  source by `pos_maxmove_time`, so it is finite); `pointGood a` is the value
  of `point_ok` after the misfire check of lines 672-683 of `scan.py` on
  attempt `a` (it stands for `(all trig.done ∧ elapsed > 0.75*min_dwelltime)
  ∨ (∀ trig, trig.runtime > 0.8*min_dwelltime)`).
* Hardware interactions are recorded as an event trace: moves, trigger
  starts, counter reads, `write_data` calls, hook invocations.
* The unbounded `while` loops of the source are given fuel; a run that does
  not finish within its fuel is `none`.
-/

namespace StepScan

/-- Flags read from the state store by one call of `look_for_interrupts`
(`request_abort` / `request_pause` / `request_resume`). -/
structure Flags where
  abort : Bool
  pause : Bool
  resume : Bool
deriving Repr, DecidableEq

/-- Observable actions of the engine, in the order they are issued. -/
inductive Event where
  /-- `p.move_to_start(...)` for one positioner (lines 536 and 593). -/
  | moveToStart : Event
  /-- an assignment to `self.cpt` (line 590 sets 0, line 629 sets i+1). -/
  | setCpt : Nat → Event
  /-- `[p.move_to_pos(i) for p in self.positioners]` (line 641). -/
  | move : Nat → Event
  /-- `[trig.start() for trig in self.triggers]` (line 659). -/
  | triggerStart : Nat → Event
  /-- `[c.read() for c in self.counters]` (line 688). -/
  | counterRead : Nat → Event
  /-- `self.pos_actual.append(...)` (line 691). -/
  | posActual : Nat → Event
  /-- `datafile.write_data(breakpoint=b)`; the final close uses b = -1. -/
  | writeData : Int → Event
  /-- the pre-scan hook batch of `prepare_stepscan` (line 565). -/
  | preScanHook : Event
  /-- `det.pre_scan(...)` re-run for one detector in the retry block (line 711). -/
  | retryPrescan : Nat → Event
  /-- `pos.move_to(val, wait=False)` back to an original position (line 725). -/
  | returnMove : Event
  /-- the `post_scan` hook batch (line 734). -/
  | postScanHook : Event
deriving Repr, DecidableEq

/-- One positioner: its drive PV name, target array and soft limits. -/
structure Positioner where
  pvname : String
  array : List Int
  llm : Int
  hlm : Int
deriving Repr, DecidableEq

/-- Static configuration of a scan: the registered collaborators. -/
structure Scan where
  positioners : List Positioner
  ntriggers : Nat
  ncounters : Nat
  ndetectors : Nat
  breakpoints : List Nat
deriving Repr, DecidableEq

/-- Mutable state of a run of `run_stepscan`. -/
structure ScanState where
  cpt : Nat
  npts : Nat
  abort : Bool
  pause : Bool
  resume : Bool
  /-- number of `look_for_interrupts` calls made so far (stream position). -/
  sampleIdx : Nat
  /-- number of point-loop bodies begun so far (hardware oracle position). -/
  attempt : Nat
  /-- length of each counter's accumulation buffer `c.buff`. -/
  counterBuf : Nat
  /-- length of `self.pos_actual`. -/
  posActualLen : Nat
  events : List Event
deriving Repr, DecidableEq

/-- The environment of a run: state-store reads and hardware oracles. -/
structure Env where
  stream : Nat → Flags
  posPolls : Nat → Nat
  pointGood : Nat → Bool

/-- State of a freshly constructed `StepScan` object. -/
def initState : ScanState :=
  { cpt := 0, npts := 0, abort := false, pause := false, resume := false,
    sampleIdx := 0, attempt := 0, counterBuf := 0, posActualLen := 0,
    events := [] }

/-- `look_for_interrupts` (lines 483-494): read the three request flags from
the store and return the abort flag. -/
def look_for_interrupts (env : Env) (s : ScanState) : ScanState × Bool :=
  let f := env.stream s.sampleIdx
  ({ s with abort := f.abort, pause := f.pause, resume := f.resume,
            sampleIdx := s.sampleIdx + 1 }, f.abort)

/-- Modelled from the spec: `Positioner.verify_array` lives in
`lib/positioner.py`, which is not among the sources here.  The spec says
validation checks that targets "lie within configured soft limits" (HLM and
LLM fields), so we model it as: every target lies within `[llm, hlm]`. -/
def Positioner.verify_array (p : Positioner) : Bool :=
  p.array.all (fun v => decide (p.llm ≤ v) && decide (v ≤ p.hlm))

/-- Body of the loop of `verify_scan` (lines 358-369): check each
positioner's array against its limits, and all array lengths against the
length of the first.  Returns the boolean result together with the
`set_error` message written on failure. -/
def verify_go : List Positioner → Option Nat → Bool × Option String
  | [], _ => (true, none)
  | p :: rest, npts =>
    if p.verify_array = false then
      (false, some ("Positioner " ++ p.pvname ++ " array out of bounds"))
    else
      match npts with
      | none => verify_go rest (some p.array.length)
      | some n =>
        if p.array.length ≠ n then
          (false, some "Inconsistent positioner array length")
        else verify_go rest (some n)

/-- `verify_scan` (lines 350-369). -/
def verify_scan (scan : Scan) : Bool × Option String :=
  verify_go scan.positioners none

/-- Outcome of `prepare_stepscan`.  `validationError` is the early return of
line 529 (in the source the `self.write` on line 527 even raises an
`AttributeError`, since `self._scangroup` is never assigned; either way the
run stops there).  `emptyPositioners` is the `IndexError` raised by
`self.positioners[0]` on line 539 when no positioner is registered.  Both
carry the state at that moment, so that the absence of side effects is a
provable statement. -/
inductive PrepResult where
  | ok : ScanState → PrepResult
  | validationError : String → ScanState → PrepResult
  | emptyPositioners : ScanState → PrepResult
deriving Repr, DecidableEq

/-- `prepare_stepscan` (lines 520-597).  Database writes (`set_info`,
`init_scandata`, the messenger thread) have no hardware effect and are not
recorded; the two `move_to_start` batches, the pre-scan hooks, the initial
`write_data(breakpoint=0)`, `clear_data` and the `cpt = 0` assignment are. -/
def prepare_stepscan (scan : Scan) : PrepResult :=
  match verify_scan scan with
  | (false, msg) => .validationError (msg.getD "") initState
  | (true, _) =>
    -- clear_interrupts (line 531)
    let s := { initState with abort := false, pause := false, resume := false }
    -- orig_positions captured (line 534); move to start, non-blocking (line 536)
    let s := { s with events :=
                 s.events ++ List.replicate scan.positioners.length Event.moveToStart }
    match scan.positioners with
    | [] => .emptyPositioners s
    | p0 :: _ =>
      let npts := p0.array.length
      -- pre_scan hook batch (line 565)
      let s := { s with events := s.events ++ [Event.preScanHook] }
      -- datafile opened and first checkpoint written (lines 568-571)
      let s := { s with events := s.events ++ [Event.writeData 0] }
      -- clear_data (line 575)
      let s := { s with counterBuf := 0, posActualLen := 0 }
      -- cpt = 0, npts fixed (lines 590-591)
      let s := { s with cpt := 0, npts := npts,
                        events := s.events ++ [Event.setCpt 0] }
      -- move to start, blocking (line 593)
      let s := { s with events :=
                   s.events ++ List.replicate scan.positioners.length Event.moveToStart }
      .ok s

/-- The pause wait loop (lines 632-635):
`while self.pause: sleep(0.25); if self.look_for_interrupts(): break`.
`none` means the fuel ran out while still paused (the source loops on). -/
def pauseWait (env : Env) : Nat → ScanState → Option ScanState
  | 0, s => if s.pause then none else some s
  | n + 1, s =>
    if s.pause then
      let p := look_for_interrupts env s
      if p.2 then some p.1 else pauseWait env n p.1
    else some s

/-- The positioner wait loop (lines 648-653): it re-samples interrupts each
iteration and stops early on abort; the iteration count (all positioners
done, or `pos_maxmove_time` elapsed) comes from the hardware oracle. -/
def posWait (env : Env) : Nat → ScanState → ScanState
  | 0, s => s
  | n + 1, s =>
    let p := look_for_interrupts env s
    if p.2 then p.1 else posWait env n p.1

/-- How one execution of the loop body ends. -/
inductive PointStep where
  /-- fall through; the loop advances to `i + 1`. -/
  | ok : PointStep
  /-- the point misfired; the retry block ran and `i` was decremented. -/
  | retry : PointStep
  /-- `break` out of the main loop at line 671 (abort seen after the trigger wait). -/
  | broke : PointStep
deriving Repr, DecidableEq

/-- Start of the loop body at point `i`: `self.cpt = i + 1` (line 629) and
the `look_for_interrupts()` of line 630, whose return value the source does
not use. -/
def bodyPre (env : Env) (i : Nat) (s0 : ScanState) : ScanState :=
  (look_for_interrupts env
    { s0 with cpt := i + 1, attempt := s0.attempt + 1,
              events := s0.events ++ [Event.setCpt (i + 1)] }).1

/-- Middle of the loop body: the per-point dwelltime update (lines 637-639,
no modelled observable), the `move_to_pos(i)` batch (line 641), the
positioner wait loop with settle (lines 648-655), the trigger start batch
(line 659), the trigger wait loop (lines 663-668, which reads only trigger
flags and the clock, no interrupt samples), and finally the
`look_for_interrupts()` of line 670 whose value decides the `break`.
`a` is the hardware-oracle position of this attempt. -/
def bodyMove (env : Env) (a i : Nat) (s3 : ScanState) : ScanState × Bool :=
  let s4 := { s3 with events := s3.events ++ [Event.move i] }
  let s5 := posWait env (env.posPolls a) s4
  let s6 := { s5 with events := s5.events ++ [Event.triggerStart i] }
  look_for_interrupts env s6

/-- End of the loop body: the misfire check (lines 672-683, resolved by the
hardware oracle at attempt `a`), detector settle plus counter reads and the
`pos_actual` append (lines 686-691), the breakpoint checkpoint (lines
697-698, `at_break` writes the data file), the `look_for_interrupts()` of
line 700 (value unused, but the flag feeds the loop test), and the retry
block (lines 705-712: abort triggers, re-run each detector's `pre_scan`,
decrement `i`). -/
def bodyRead (scan : Scan) (env : Env) (a i : Nat) (s7 : ScanState) :
    ScanState × PointStep :=
  let pointOk := env.pointGood a
  let s8 := { s7 with counterBuf := s7.counterBuf + 1,
                      posActualLen := s7.posActualLen + 1,
                      events := s7.events ++
                        [Event.counterRead i, Event.posActual i] }
  let s9 := if i ∈ scan.breakpoints then
              { s8 with events := s8.events ++ [Event.writeData (Int.ofNat i)] }
            else s8
  let s10 := (look_for_interrupts env s9).1
  if pointOk then (s10, PointStep.ok)
  else
    ({ s10 with events := s10.events ++
         List.replicate scan.ndetectors (Event.retryPrescan i) },
     PointStep.retry)

/-- One execution of the body of the `while not self.abort` loop at point `i`
(lines 624-715), minus the final `i` bookkeeping which lives in `runLoop`:
the start of the body, the pause wait (lines 632-635), then the move/trigger
stage; if line 670 sees an abort the body reports `broke`, otherwise the
read/checkpoint/retry stage decides between `ok` and `retry`. -/
def runStepPoint (scan : Scan) (env : Env) (pfuel : Nat) (i : Nat)
    (s0 : ScanState) : Option (ScanState × PointStep) :=
  match pauseWait env pfuel (bodyPre env i s0) with
  | none => none
  | some s3 =>
    let p := bodyMove env s0.attempt i s3
    if p.2 then some (p.1, PointStep.broke)
    else some (bodyRead scan env s0.attempt i p.1)

/-- The main loop `i = -1; while not self.abort: i += 1; if i >= self.npts:
break; ...` (lines 622-715), with `i` already incremented (the retry case
re-runs the same `i`, matching the `i -= 1` of line 712). -/
def runLoop (scan : Scan) (env : Env) (pfuel : Nat) :
    Nat → Nat → ScanState → Option ScanState
  | 0, _, _ => none
  | fuel + 1, i, s =>
    if s.abort then some s
    else if s.npts ≤ i then some s
    else
      match runStepPoint scan env pfuel i s with
      | none => none
      | some (s1, PointStep.broke) => some s1
      | some (s1, PointStep.ok) => runLoop scan env pfuel fuel (i + 1) s1
      | some (s1, PointStep.retry) => runLoop scan env pfuel fuel i s1

/-- Result of the post-loop section: final state plus whether `ScanDBAbort`
was raised (line 731). -/
structure RunResult where
  state : ScanState
  aborted : Bool
deriving Repr, DecidableEq

/-- The post-loop section of `run_stepscan` (lines 717-753): return moves for
every positioner, the final close-and-flush `write_data`, then the re-check
of the interrupt flags which decides between `ScanDBAbort` and the post-scan
hooks. -/
def finish_stepscan (scan : Scan) (env : Env) (s : ScanState) : RunResult :=
  -- return to original positions, non-blocking (lines 724-725)
  let s1 := { s with events :=
                s.events ++ List.replicate scan.positioners.length Event.returnMove }
  -- datafile.write_data(breakpoint=-1, close_file=True) (line 727)
  let s2 := { s1 with events := s1.events ++ [Event.writeData (-1)] }
  -- if self.look_for_interrupts(): raise ScanDBAbort (lines 729-731)
  let p := look_for_interrupts env s2
  if p.2 then { state := p.1, aborted := true }
  else
    -- post_scan hook batch, completion (lines 734-737)
    { state := { p.1 with events := p.1.events ++ [Event.postScanHook] },
      aborted := false }

/-- Overall outcome of `run_stepscan`. -/
inductive RunOutcome where
  | validationError : String → ScanState → RunOutcome
  | emptyPositioners : ScanState → RunOutcome
  | result : RunResult → RunOutcome
deriving Repr, DecidableEq

/-- `run_stepscan` (lines 599-753): prepare, loop, finish. -/
def run_stepscan (scan : Scan) (env : Env) (pfuel fuel : Nat) :
    Option RunOutcome :=
  match prepare_stepscan scan with
  | .validationError msg s => some (.validationError msg s)
  | .emptyPositioners s => some (.emptyPositioners s)
  | .ok s =>
    match runLoop scan env pfuel fuel 0 s with
    | none => none
    | some s1 => some (.result (finish_stepscan scan env s1))

/-! Trace observation helpers. -/

/-- Events a loop-body attempt at point `i` may append after its leading
`setCpt`: the point's own move, trigger, reads, breakpoint write and retry
hooks, nothing else. -/
def pointTail (i : Nat) : Event → Bool
  | Event.move j => j = i
  | Event.triggerStart j => j = i
  | Event.counterRead j => j = i
  | Event.posActual j => j = i
  | Event.writeData b => b = Int.ofNat i
  | Event.retryPrescan j => j = i
  | _ => false

/-- The final close-and-flush `write_data` call (breakpoint = -1). -/
def isFinalWrite : Event → Bool
  | Event.writeData b => b = -1
  | _ => false

/-- A return-to-original-position move. -/
def isReturnMove : Event → Bool
  | Event.returnMove => true
  | _ => false

/-- A post-scan hook invocation. -/
def isPostHook : Event → Bool
  | Event.postScanHook => true
  | _ => false

/-- Any `write_data` invocation, whatever its breakpoint argument. -/
def isWrite : Event → Bool
  | Event.writeData _ => true
  | _ => false

/-- The successive values assigned to `self.cpt`, read off the trace. -/
def cptValues (l : List Event) : List Nat :=
  l.filterMap fun e =>
    match e with
    | Event.setCpt v => some v
    | _ => none

theorem pointTail_finalWrite {i : Nat} {e : Event} (h : pointTail i e = true) :
    isFinalWrite e = false := by
  cases e <;> simp_all [pointTail, isFinalWrite]

theorem pointTail_returnMove {i : Nat} {e : Event} (h : pointTail i e = true) :
    isReturnMove e = false := by
  cases e <;> simp_all [pointTail, isReturnMove]

theorem pointTail_postHook {i : Nat} {e : Event} (h : pointTail i e = true) :
    isPostHook e = false := by
  cases e <;> simp_all [pointTail, isPostHook]

theorem pointTail_cptValues {i : Nat} {t : List Event}
    (h : t.all (pointTail i) = true) : cptValues t = [] := by
  induction t with
  | nil => rfl
  | cons e t ih =>
    simp only [List.all_cons, Bool.and_eq_true] at h
    have he := h.1
    have ht := ih h.2
    cases e <;> simp_all [pointTail, cptValues, List.filterMap_cons]

theorem countP_eq_zero_of_all {p q : Event → Bool} {t : List Event}
    (h : t.all p = true) (hpq : ∀ e, p e = true → q e = false) :
    t.countP q = 0 := by
  induction t with
  | nil => rfl
  | cons e t ih =>
    simp only [List.all_cons, Bool.and_eq_true] at h
    rw [List.countP_cons, ih h.2, hpq e h.1]
    rfl

/-! Basic facts about the waits and the interrupt sampler. -/

theorem look_fst (env : Env) (s : ScanState) :
    (look_for_interrupts env s).1 =
      { s with abort := (env.stream s.sampleIdx).abort,
               pause := (env.stream s.sampleIdx).pause,
               resume := (env.stream s.sampleIdx).resume,
               sampleIdx := s.sampleIdx + 1 } := rfl

theorem look_snd (env : Env) (s : ScanState) :
    (look_for_interrupts env s).2 = (env.stream s.sampleIdx).abort := rfl

/-- Fields other than the flags and the sample position are untouched by a
completed pause wait, and the sample position does not go down. -/
theorem pauseWait_spec (env : Env) :
    ∀ (n : Nat) (s s' : ScanState), pauseWait env n s = some s' →
      s'.events = s.events ∧ s'.cpt = s.cpt ∧ s'.npts = s.npts ∧
      s'.attempt = s.attempt ∧ s'.counterBuf = s.counterBuf ∧
      s'.posActualLen = s.posActualLen ∧ s.sampleIdx ≤ s'.sampleIdx := by
  intro n
  induction n with
  | zero =>
    intro s s' h
    simp only [pauseWait] at h
    split at h
    · exact absurd h (by simp)
    · cases h
      exact ⟨rfl, rfl, rfl, rfl, rfl, rfl, Nat.le_refl _⟩
  | succ n ih =>
    intro s s' h
    simp only [pauseWait] at h
    split at h
    · split at h
      · cases h
        exact ⟨rfl, rfl, rfl, rfl, rfl, rfl, Nat.le_succ _⟩
      · have := ih _ _ h
        simp only [look_fst] at this
        exact ⟨this.1, this.2.1, this.2.2.1, this.2.2.2.1, this.2.2.2.2.1,
               this.2.2.2.2.2.1, Nat.le_trans (Nat.le_succ _) this.2.2.2.2.2.2⟩
    · cases h
      exact ⟨rfl, rfl, rfl, rfl, rfl, rfl, Nat.le_refl _⟩

/-- A pause wait started unpaused exits at once. -/
theorem pauseWait_not_paused (env : Env) (n : Nat) (s : ScanState)
    (h : s.pause = false) : pauseWait env n s = some s := by
  cases n <;> simp [pauseWait, h]

/-- Same frame facts for the positioner wait. -/
theorem posWait_spec (env : Env) :
    ∀ (n : Nat) (s : ScanState),
      (posWait env n s).events = s.events ∧ (posWait env n s).cpt = s.cpt ∧
      (posWait env n s).npts = s.npts ∧ (posWait env n s).attempt = s.attempt ∧
      (posWait env n s).counterBuf = s.counterBuf ∧
      (posWait env n s).posActualLen = s.posActualLen ∧
      s.sampleIdx ≤ (posWait env n s).sampleIdx := by
  intro n
  induction n with
  | zero =>
    intro s
    exact ⟨rfl, rfl, rfl, rfl, rfl, rfl, Nat.le_refl _⟩
  | succ n ih =>
    intro s
    simp only [posWait]
    split
    · exact ⟨rfl, rfl, rfl, rfl, rfl, rfl, Nat.le_succ _⟩
    · have := ih (look_for_interrupts env s).1
      simp only [look_fst] at this
      exact ⟨this.1, this.2.1, this.2.2.1, this.2.2.2.1, this.2.2.2.2.1,
             this.2.2.2.2.2.1, Nat.le_trans (Nat.le_succ _) this.2.2.2.2.2.2⟩

/-! Stage lemmas for the loop body. -/

theorem bodyPre_spec (env : Env) (i : Nat) (s0 : ScanState) :
    (bodyPre env i s0).events = s0.events ++ [Event.setCpt (i + 1)] ∧
    (bodyPre env i s0).cpt = i + 1 ∧
    (bodyPre env i s0).npts = s0.npts ∧
    (bodyPre env i s0).attempt = s0.attempt + 1 ∧
    (bodyPre env i s0).sampleIdx = s0.sampleIdx + 1 ∧
    (bodyPre env i s0).counterBuf = s0.counterBuf ∧
    (bodyPre env i s0).posActualLen = s0.posActualLen :=
  ⟨rfl, rfl, rfl, rfl, rfl, rfl, rfl⟩

theorem bodyMove_spec (env : Env) (a i : Nat) (s3 : ScanState) :
    (bodyMove env a i s3).1.events =
      s3.events ++ [Event.move i, Event.triggerStart i] ∧
    (bodyMove env a i s3).1.cpt = s3.cpt ∧
    (bodyMove env a i s3).1.npts = s3.npts ∧
    (bodyMove env a i s3).1.attempt = s3.attempt ∧
    (bodyMove env a i s3).1.counterBuf = s3.counterBuf ∧
    (bodyMove env a i s3).1.posActualLen = s3.posActualLen ∧
    s3.sampleIdx + 1 ≤ (bodyMove env a i s3).1.sampleIdx := by
  have hw := posWait_spec env (env.posPolls a)
    { s3 with events := s3.events ++ [Event.move i] }
  simp only [bodyMove, look_fst]
  refine ⟨?_, hw.2.1, hw.2.2.1, hw.2.2.2.1, hw.2.2.2.2.1, hw.2.2.2.2.2.1, ?_⟩
  · rw [hw.1]
    simp
  · have := hw.2.2.2.2.2.2
    simp only [ScanState.sampleIdx] at this ⊢
    omega

theorem bodyRead_spec (scan : Scan) (env : Env) (a i : Nat) (s7 : ScanState) :
    (bodyRead scan env a i s7).1.events =
      s7.events ++ [Event.counterRead i, Event.posActual i] ++
        (if i ∈ scan.breakpoints then [Event.writeData (Int.ofNat i)] else []) ++
        (if env.pointGood a then []
         else List.replicate scan.ndetectors (Event.retryPrescan i)) ∧
    (bodyRead scan env a i s7).1.cpt = s7.cpt ∧
    (bodyRead scan env a i s7).1.npts = s7.npts ∧
    (bodyRead scan env a i s7).1.attempt = s7.attempt ∧
    (bodyRead scan env a i s7).1.counterBuf = s7.counterBuf + 1 ∧
    (bodyRead scan env a i s7).1.posActualLen = s7.posActualLen + 1 ∧
    (bodyRead scan env a i s7).1.sampleIdx = s7.sampleIdx + 1 ∧
    (bodyRead scan env a i s7).2 =
      (if env.pointGood a then PointStep.ok else PointStep.retry) := by
  by_cases hg : env.pointGood a = true <;>
    by_cases hb : i ∈ scan.breakpoints <;>
      simp [bodyRead, look_fst, hg, hb]

theorem runStepPoint_some_facts {scan : Scan} {env : Env} {pfuel i : Nat}
    {s0 s' : ScanState} {st : PointStep}
    (h : runStepPoint scan env pfuel i s0 = some (s', st)) :
    (∃ t, s'.events = s0.events ++ (Event.setCpt (i + 1) :: t) ∧
       t.all (pointTail i) = true) ∧
    s'.npts = s0.npts ∧ s'.attempt = s0.attempt + 1 ∧
    s0.sampleIdx + 2 ≤ s'.sampleIdx ∧ s'.cpt = i + 1 ∧
    (st = PointStep.broke →
       s'.counterBuf = s0.counterBuf ∧ s'.posActualLen = s0.posActualLen ∧
       s'.events = s0.events ++
         [Event.setCpt (i + 1), Event.move i, Event.triggerStart i]) ∧
    (st ≠ PointStep.broke →
       s'.counterBuf = s0.counterBuf + 1 ∧
       s'.posActualLen = s0.posActualLen + 1) ∧
    (st = PointStep.ok → env.pointGood s0.attempt = true) ∧
    (st = PointStep.retry → env.pointGood s0.attempt = false) := by
  have hpre := bodyPre_spec env i s0
  rcases hp : pauseWait env pfuel (bodyPre env i s0) with _ | s3
  · rw [runStepPoint, hp] at h
    exact absurd h (by simp)
  · have hps := pauseWait_spec env pfuel _ s3 hp
    have hmv := bodyMove_spec env s0.attempt i s3
    rw [runStepPoint, hp] at h
    simp only [] at h
    by_cases hab : (bodyMove env s0.attempt i s3).2 = true
    · rw [if_pos hab] at h
      have hs : s' = (bodyMove env s0.attempt i s3).1 ∧ st = PointStep.broke := by
        cases h
        exact ⟨rfl, rfl⟩
      rcases hs with ⟨rfl, rfl⟩
      have hev : (bodyMove env s0.attempt i s3).1.events =
          s0.events ++ [Event.setCpt (i + 1), Event.move i, Event.triggerStart i] := by
        rw [hmv.1, hps.1, hpre.1]
        simp
      refine ⟨⟨[Event.move i, Event.triggerStart i], ?_, by simp [pointTail]⟩,
              ?_, ?_, ?_, ?_, ?_, ?_, ?_, ?_⟩
      · rw [hev]
      · rw [hmv.2.2.1, hps.2.2.1, hpre.2.2.1]
      · rw [hmv.2.2.2.1, hps.2.2.2.1, hpre.2.2.2.1]
      · have h1 := hpre.2.2.2.2.1
        have h2 := hps.2.2.2.2.2.2
        have h3 := hmv.2.2.2.2.2.2
        omega
      · rw [hmv.2.1, hps.2.1, hpre.2.1]
      · exact fun _ => ⟨by rw [hmv.2.2.2.2.1, hps.2.2.2.2.1, hpre.2.2.2.2.2.1],
          by rw [hmv.2.2.2.2.2.1, hps.2.2.2.2.2.1, hpre.2.2.2.2.2.2], hev⟩
      · intro hne
        exact absurd rfl hne
      · intro hok
        exact absurd hok (by simp)
      · intro hrt
        exact absurd hrt (by simp)
    · rw [if_neg hab] at h
      have hrd := bodyRead_spec scan env s0.attempt i (bodyMove env s0.attempt i s3).1
      have hx := Option.some.inj h
      have h1 : s' = (bodyRead scan env s0.attempt i (bodyMove env s0.attempt i s3).1).1 :=
        (congrArg Prod.fst hx).symm
      have h2 : st = (bodyRead scan env s0.attempt i (bodyMove env s0.attempt i s3).1).2 :=
        (congrArg Prod.snd hx).symm
      subst h1
      subst h2
      have hev : (bodyRead scan env s0.attempt i (bodyMove env s0.attempt i s3).1).1.events =
          s0.events ++ (Event.setCpt (i + 1) ::
            ([Event.move i, Event.triggerStart i] ++
             [Event.counterRead i, Event.posActual i] ++
             (if i ∈ scan.breakpoints then [Event.writeData (Int.ofNat i)] else []) ++
             (if env.pointGood s0.attempt then []
              else List.replicate scan.ndetectors (Event.retryPrescan i)))) := by
        rw [hrd.1, hmv.1, hps.1, hpre.1]
        simp
      refine ⟨⟨_, hev, ?_⟩, ?_, ?_, ?_, ?_, ?_, ?_, ?_, ?_⟩
      · by_cases hg : env.pointGood s0.attempt = true <;>
          by_cases hb : i ∈ scan.breakpoints <;>
            simp [hg, hb, pointTail, List.all_eq_true, List.mem_replicate]
      · rw [hrd.2.2.1, hmv.2.2.1, hps.2.2.1, hpre.2.2.1]
      · rw [hrd.2.2.2.1, hmv.2.2.2.1, hps.2.2.2.1, hpre.2.2.2.1]
      · have h1 := hpre.2.2.2.2.1
        have h2 := hps.2.2.2.2.2.2
        have h3 := hmv.2.2.2.2.2.2
        have h4 := hrd.2.2.2.2.2.2.1
        omega
      · rw [hrd.2.1, hmv.2.1, hps.2.1, hpre.2.1]
      · intro hbr
        rw [hrd.2.2.2.2.2.2.2] at hbr
        by_cases hg : env.pointGood s0.attempt = true <;> simp [hg] at hbr
      · intro _
        exact ⟨by rw [hrd.2.2.2.2.1, hmv.2.2.2.2.1, hps.2.2.2.2.1, hpre.2.2.2.2.2.1],
               by rw [hrd.2.2.2.2.2.1, hmv.2.2.2.2.2.1, hps.2.2.2.2.2.1, hpre.2.2.2.2.2.2]⟩
      · intro hok
        rw [hrd.2.2.2.2.2.2.2] at hok
        by_cases hg : env.pointGood s0.attempt = true
        · exact hg
        · simp [hg] at hok
      · intro hrt
        rw [hrd.2.2.2.2.2.2.2] at hrt
        by_cases hg : env.pointGood s0.attempt = true
        · simp [hg] at hrt
        · simp [hg]

/-! Behaviour of one body attempt in a quiet environment (no interrupt flag
ever set in the store). -/

theorem runStepPoint_quiet {env : Env}
    (hq : ∀ j, env.stream j = { abort := false, pause := false, resume := false })
    (scan : Scan) (pfuel i : Nat) (s0 : ScanState) :
    ∃ s', runStepPoint scan env pfuel i s0 =
        some (s', if env.pointGood s0.attempt then PointStep.ok else PointStep.retry) ∧
      s'.abort = false ∧ s'.npts = s0.npts ∧ s'.attempt = s0.attempt + 1 ∧
      s'.counterBuf = s0.counterBuf + 1 ∧ s'.posActualLen = s0.posActualLen + 1 ∧
      s'.cpt = i + 1 ∧
      s'.events = s0.events ++
        [Event.setCpt (i + 1), Event.move i, Event.triggerStart i,
         Event.counterRead i, Event.posActual i] ++
        (if i ∈ scan.breakpoints then [Event.writeData (Int.ofNat i)] else []) ++
        (if env.pointGood s0.attempt then []
         else List.replicate scan.ndetectors (Event.retryPrescan i)) := by
  have hbp : (bodyPre env i s0).pause = false := by
    simp [bodyPre, look_fst, hq]
  have hab : (bodyMove env s0.attempt i (bodyPre env i s0)).2 = false := by
    simp [bodyMove, look_snd, hq]
  have hmv := bodyMove_spec env s0.attempt i (bodyPre env i s0)
  have hrd := bodyRead_spec scan env s0.attempt i
    (bodyMove env s0.attempt i (bodyPre env i s0)).1
  have hpre := bodyPre_spec env i s0
  refine ⟨(bodyRead scan env s0.attempt i
      (bodyMove env s0.attempt i (bodyPre env i s0)).1).1, ?_, ?_, ?_, ?_, ?_, ?_, ?_, ?_⟩
  · rw [runStepPoint, pauseWait_not_paused env pfuel _ hbp]
    simp only [hab, Bool.false_eq_true, if_false]
    rw [← hrd.2.2.2.2.2.2.2]
  · have : (bodyRead scan env s0.attempt i
        (bodyMove env s0.attempt i (bodyPre env i s0)).1).1.abort = false := by
      by_cases hg : env.pointGood s0.attempt = true <;>
        by_cases hb : i ∈ scan.breakpoints <;>
          simp [bodyRead, look_fst, hq, hg, hb]
    exact this
  · rw [hrd.2.2.1, hmv.2.2.1, hpre.2.2.1]
  · rw [hrd.2.2.2.1, hmv.2.2.2.1, hpre.2.2.2.1]
  · rw [hrd.2.2.2.2.1, hmv.2.2.2.2.1, hpre.2.2.2.2.2.1]
  · rw [hrd.2.2.2.2.2.1, hmv.2.2.2.2.2.1, hpre.2.2.2.2.2.2]
  · rw [hrd.2.1, hmv.2.1, hpre.2.1]
  · rw [hrd.1, hmv.1, hpre.1]
    simp

/-! Behaviour once the store's abort flag is (and stays) set. -/

theorem pauseWait_sticky {env : Env} {k : Nat}
    (hst : ∀ j, k ≤ j → (env.stream j).abort = true) :
    ∀ (n : Nat) (s : ScanState), 1 ≤ n → k + 1 ≤ n + s.sampleIdx →
      (pauseWait env n s).isSome := by
  intro n
  induction n with
  | zero => intro s h1 _; omega
  | succ n ih =>
    intro s _ h2
    rw [pauseWait]
    split
    · by_cases hab : (look_for_interrupts env s).2 = true
      · simp [hab]
      · simp only [hab, Bool.false_eq_true, if_false]
        have hklt : s.sampleIdx < k := by
          by_contra hge
          exact hab (by rw [look_snd]; exact hst _ (Nat.le_of_not_lt hge))
        have hn : 1 ≤ n := by omega
        refine ih _ hn ?_
        rw [look_fst]
        simp only [ScanState.sampleIdx]
        omega
    · simp

theorem bodyMove_snd_sticky {env : Env} {k : Nat}
    (hst : ∀ j, k ≤ j → (env.stream j).abort = true)
    {a i : Nat} {s3 : ScanState} (hk : k ≤ s3.sampleIdx) :
    (bodyMove env a i s3).2 = true := by
  rw [bodyMove]
  rw [look_snd]
  apply hst
  have hw := (posWait_spec env (env.posPolls a)
    { s3 with events := s3.events ++ [Event.move i] }).2.2.2.2.2.2
  simp only [ScanState.sampleIdx] at hw ⊢
  omega

theorem runStepPoint_sticky_broke {env : Env} {k : Nat}
    (hst : ∀ j, k ≤ j → (env.stream j).abort = true)
    (scan : Scan) (pfuel i : Nat) (s0 : ScanState)
    (hk : k ≤ s0.sampleIdx) (hpf : 1 ≤ pfuel) :
    ∃ s', runStepPoint scan env pfuel i s0 = some (s', PointStep.broke) := by
  have hpreidx : (bodyPre env i s0).sampleIdx = s0.sampleIdx + 1 :=
    (bodyPre_spec env i s0).2.2.2.2.1
  by_cases hbp : (bodyPre env i s0).pause = true
  · rcases pfuel with _ | m
    · omega
    · have hab2 : (look_for_interrupts env (bodyPre env i s0)).2 = true := by
        rw [look_snd]
        exact hst _ (by omega)
      have hpw : pauseWait env (m + 1) (bodyPre env i s0) =
          some (look_for_interrupts env (bodyPre env i s0)).1 := by
        rw [pauseWait, if_pos hbp, if_pos hab2]
      have hk3 : k ≤ (look_for_interrupts env (bodyPre env i s0)).1.sampleIdx := by
        rw [look_fst]
        simp only [ScanState.sampleIdx]
        omega
      refine ⟨(bodyMove env s0.attempt i
        (look_for_interrupts env (bodyPre env i s0)).1).1, ?_⟩
      rw [runStepPoint, hpw]
      simp [bodyMove_snd_sticky hst hk3]
  · have hbp2 : (bodyPre env i s0).pause = false := Bool.eq_false_iff.mpr hbp
    have hpw : pauseWait env pfuel (bodyPre env i s0) = some (bodyPre env i s0) :=
      pauseWait_not_paused env pfuel _ hbp2
    have hk3 : k ≤ (bodyPre env i s0).sampleIdx := by omega
    refine ⟨(bodyMove env s0.attempt i (bodyPre env i s0)).1, ?_⟩
    rw [runStepPoint, hpw]
    simp [bodyMove_snd_sticky hst hk3]

theorem runStepPoint_isSome (scan : Scan) {env : Env} {pfuel i : Nat}
    {s0 : ScanState} (h : (pauseWait env pfuel (bodyPre env i s0)).isSome) :
    (runStepPoint scan env pfuel i s0).isSome := by
  rcases hp : pauseWait env pfuel (bodyPre env i s0) with _ | s3
  · rw [hp] at h
    exact absurd h (by simp)
  · rw [runStepPoint, hp]
    by_cases hab : (bodyMove env s0.attempt i s3).2 = true <;> simp [hab]

/-- Termination of the point loop once the abort flag is stuck on: with
enough fuel the loop always exits. -/
theorem runLoop_sticky_some {scan : Scan} {env : Env} {k pfuel : Nat}
    (hst : ∀ j, k ≤ j → (env.stream j).abort = true)
    (hpf : k + 1 ≤ pfuel) :
    ∀ (fuel i : Nat) (s : ScanState), 1 ≤ fuel →
      k + 2 ≤ 2 * fuel + s.sampleIdx →
      (runLoop scan env pfuel fuel i s).isSome := by
  intro fuel
  induction fuel with
  | zero => intro i s h1 _; omega
  | succ f ih =>
    intro i s _ h2
    rw [runLoop]
    split
    · simp
    · split
      · simp
      · rcases hbody : runStepPoint scan env pfuel i s with _ | ⟨s1, st⟩
        · exfalso
          have hsome : (pauseWait env pfuel (bodyPre env i s)).isSome := by
            refine pauseWait_sticky hst pfuel _ (by omega) ?_
            omega
          have := runStepPoint_isSome scan hsome
          rw [hbody] at this
          exact absurd this (by simp)
        · have hfacts := runStepPoint_some_facts hbody
          have hidx := hfacts.2.2.2.1
          cases st with
          | broke => simp
          | ok =>
            have hf1 : 1 ≤ f := by
              by_contra hf0
              have hf0 : f = 0 := by omega
              subst hf0
              have hks : k ≤ s.sampleIdx := by omega
              obtain ⟨s'', hb⟩ :=
                runStepPoint_sticky_broke hst scan pfuel i s hks (by omega)
              rw [hbody] at hb
              have := (Prod.mk.injEq _ _ _ _).mp (Option.some.inj hb)
              exact absurd this.2 (by simp)
            exact ih _ _ hf1 (by omega)
          | retry =>
            have hf1 : 1 ≤ f := by
              by_contra hf0
              have hf0 : f = 0 := by omega
              subst hf0
              have hks : k ≤ s.sampleIdx := by omega
              obtain ⟨s'', hb⟩ :=
                runStepPoint_sticky_broke hst scan pfuel i s hks (by omega)
              rw [hbody] at hb
              have := (Prod.mk.injEq _ _ _ _).mp (Option.some.inj hb)
              exact absurd this.2 (by simp)
            exact ih _ _ hf1 (by omega)

/-! Counting events across the phases of a run. -/

theorem countP_replicate (p : Event → Bool) (e : Event) :
    ∀ n, (List.replicate n e).countP p = if p e = true then n else 0 := by
  intro n
  induction n with
  | zero => simp
  | succ n ih =>
    rw [List.replicate_succ, List.countP_cons, ih]
    by_cases hp : p e = true <;> simp [hp]

theorem cptValues_append (l1 l2 : List Event) :
    cptValues (l1 ++ l2) = cptValues l1 ++ cptValues l2 :=
  List.filterMap_append l1 l2 _

theorem cptValues_replicate_moveToStart :
    ∀ n, cptValues (List.replicate n Event.moveToStart) = [] := by
  intro n
  induction n with
  | zero => rfl
  | succ n ih => rw [List.replicate_succ, cptValues, List.filterMap_cons]; exact ih

theorem cptValues_replicate_returnMove :
    ∀ n, cptValues (List.replicate n Event.returnMove) = [] := by
  intro n
  induction n with
  | zero => rfl
  | succ n ih => rw [List.replicate_succ, cptValues, List.filterMap_cons]; exact ih

/-- A loop-body attempt adds no final write, no return move and no post-scan
hook to the trace. -/
theorem runStepPoint_counts {scan : Scan} {env : Env} {pfuel i : Nat}
    {s0 s' : ScanState} {st : PointStep}
    (h : runStepPoint scan env pfuel i s0 = some (s', st)) :
    s'.events.countP isFinalWrite = s0.events.countP isFinalWrite ∧
    s'.events.countP isReturnMove = s0.events.countP isReturnMove ∧
    s'.events.countP isPostHook = s0.events.countP isPostHook := by
  obtain ⟨⟨t, hev, hall⟩, -⟩ := runStepPoint_some_facts h
  have h1 : t.countP isFinalWrite = 0 :=
    countP_eq_zero_of_all hall fun e he => pointTail_finalWrite he
  have h2 : t.countP isReturnMove = 0 :=
    countP_eq_zero_of_all hall fun e he => pointTail_returnMove he
  have h3 : t.countP isPostHook = 0 :=
    countP_eq_zero_of_all hall fun e he => pointTail_postHook he
  rw [hev]
  simp [List.countP_append, List.countP_cons, h1, h2, h3, isFinalWrite,
        isReturnMove, isPostHook]

/-- Frame facts carried around the whole point loop. -/
theorem runLoop_counts {scan : Scan} {env : Env} {pfuel : Nat} :
    ∀ (fuel i : Nat) (s s' : ScanState),
      runLoop scan env pfuel fuel i s = some s' →
      s'.npts = s.npts ∧ s.sampleIdx ≤ s'.sampleIdx ∧
      s'.events.countP isFinalWrite = s.events.countP isFinalWrite ∧
      s'.events.countP isReturnMove = s.events.countP isReturnMove ∧
      s'.events.countP isPostHook = s.events.countP isPostHook := by
  intro fuel
  induction fuel with
  | zero => intro i s s' h; exact absurd h (by simp [runLoop])
  | succ f ih =>
    intro i s s' h
    rw [runLoop] at h
    split at h
    · cases h
      exact ⟨rfl, Nat.le_refl _, rfl, rfl, rfl⟩
    · split at h
      · cases h
        exact ⟨rfl, Nat.le_refl _, rfl, rfl, rfl⟩
      · rcases hbody : runStepPoint scan env pfuel i s with _ | ⟨s1, st⟩ <;>
          rw [hbody] at h
        · exact absurd h (by simp)
        · have hfacts := runStepPoint_some_facts hbody
          have hcnt := runStepPoint_counts hbody
          cases st with
          | broke =>
            cases h
            exact ⟨hfacts.2.1, by omega, hcnt.1, hcnt.2.1, hcnt.2.2⟩
          | ok =>
            have hr := ih _ _ _ h
            refine ⟨hr.1.trans hfacts.2.1, ?_, ?_, ?_, ?_⟩
            · have := hfacts.2.2.2.1
              omega
            · rw [hr.2.2.1, hcnt.1]
            · rw [hr.2.2.2.1, hcnt.2.1]
            · rw [hr.2.2.2.2, hcnt.2.2]
          | retry =>
            have hr := ih _ _ _ h
            refine ⟨hr.1.trans hfacts.2.1, ?_, ?_, ?_, ?_⟩
            · have := hfacts.2.2.2.1
              omega
            · rw [hr.2.2.1, hcnt.1]
            · rw [hr.2.2.2.1, hcnt.2.1]
            · rw [hr.2.2.2.2, hcnt.2.2]

/-- What the post-loop section does to the trace and how the outcome is
decided: exactly one return move per positioner, exactly one final write,
and post-scan hooks exactly when the re-read abort flag is down. -/
theorem finish_spec (scan : Scan) (env : Env) (s : ScanState) :
    (finish_stepscan scan env s).aborted = (env.stream s.sampleIdx).abort ∧
    (finish_stepscan scan env s).state.sampleIdx = s.sampleIdx + 1 ∧
    (finish_stepscan scan env s).state.npts = s.npts ∧
    (finish_stepscan scan env s).state.events.countP isFinalWrite =
      s.events.countP isFinalWrite + 1 ∧
    (finish_stepscan scan env s).state.events.countP isReturnMove =
      s.events.countP isReturnMove + scan.positioners.length ∧
    (finish_stepscan scan env s).state.events.countP isPostHook =
      s.events.countP isPostHook +
        (if (env.stream s.sampleIdx).abort = true then 0 else 1) ∧
    cptValues (finish_stepscan scan env s).state.events = cptValues s.events ∧
    (finish_stepscan scan env s).state.events.countP isWrite =
      s.events.countP isWrite + 1 := by
  by_cases hab : (env.stream s.sampleIdx).abort = true <;>
    simp [finish_stepscan, look_fst, look_snd, hab, List.countP_append,
          List.countP_cons, countP_replicate, cptValues_append,
          cptValues_replicate_returnMove, isFinalWrite, isReturnMove,
          isPostHook, isWrite, cptValues]

/-! Facts about `prepare_stepscan`. -/

theorem prepare_ok_facts {scan : Scan} {s0 : ScanState}
    (h : prepare_stepscan scan = PrepResult.ok s0) :
    s0.sampleIdx = 0 ∧ s0.abort = false ∧ s0.attempt = 0 ∧
    s0.counterBuf = 0 ∧ s0.posActualLen = 0 ∧ s0.cpt = 0 ∧
    (∃ p0 rest, scan.positioners = p0 :: rest ∧ s0.npts = p0.array.length) ∧
    cptValues s0.events = [0] ∧
    s0.events.countP isFinalWrite = 0 ∧
    s0.events.countP isReturnMove = 0 ∧
    s0.events.countP isPostHook = 0 ∧
    s0.events.countP isWrite = 1 := by
  rcases hv : verify_scan scan with ⟨b, m⟩
  cases b
  · rw [prepare_stepscan, hv] at h
    exact absurd h (by simp)
  · rcases hpos : scan.positioners with _ | ⟨p0, rest⟩
    · rw [prepare_stepscan, hv, hpos] at h
      exact absurd h (by simp)
    · rw [prepare_stepscan, hv, hpos] at h
      simp only [PrepResult.ok.injEq] at h
      subst h
      refine ⟨rfl, rfl, rfl, rfl, rfl, rfl, ⟨p0, rest, rfl, rfl⟩, ?_, ?_, ?_, ?_, ?_⟩ <;>
        simp [initState, List.countP_append, List.countP_cons, countP_replicate,
              cptValues_append, cptValues_replicate_moveToStart, isFinalWrite,
              isReturnMove, isPostHook, isWrite, cptValues]

theorem prepare_verify_false {scan : Scan} (h : (verify_scan scan).1 = false) :
    prepare_stepscan scan =
      PrepResult.validationError ((verify_scan scan).2.getD "") initState := by
  rcases hv : verify_scan scan with ⟨b, m⟩
  rw [hv] at h
  cases b
  · rw [prepare_stepscan, hv]
  · exact absurd h (by simp)

theorem prepare_empty {scan : Scan} (hp : scan.positioners = []) :
    (verify_scan scan).1 = true ∧
    ∃ st, prepare_stepscan scan = PrepResult.emptyPositioners st ∧
      st.events = [] := by
  have hv : verify_scan scan = (true, none) := by
    rw [verify_scan, hp]
    rfl
  refine ⟨by rw [hv],
    ⟨{ initState with events := initState.events ++
         List.replicate scan.positioners.length Event.moveToStart }, ?_, ?_⟩⟩
  · rw [prepare_stepscan, hv, hp]
    rfl
  · rw [hp]
    rfl

/-! Facts about `verify_scan`. -/

theorem bool_not_false {b : Bool} (h : ¬ b = false) : b = true := by
  cases b
  · exact absurd rfl h
  · rfl

theorem verify_go_some_true :
    ∀ (l : List Positioner) (n : Nat), (verify_go l (some n)).1 = true →
      ∀ p ∈ l, p.verify_array = true ∧ p.array.length = n := by
  intro l
  induction l with
  | nil => intro n _ p hp; exact absurd hp (by simp)
  | cons p0 rest ih =>
    intro n h p hp
    rw [verify_go] at h
    split at h
    · exact absurd h (by simp)
    · rename_i hver
      split at h
      · exact absurd h (by simp)
      · rename_i hlen
        rcases List.mem_cons.mp hp with hp | hp
        · subst hp
          exact ⟨bool_not_false hver, not_ne_iff.mp hlen⟩
        · exact ih n h p hp

theorem verify_true_lengths {scan : Scan} (h : (verify_scan scan).1 = true) :
    (∀ p ∈ scan.positioners, p.verify_array = true) ∧
    (∀ p ∈ scan.positioners, ∀ q ∈ scan.positioners,
       p.array.length = q.array.length) := by
  rcases hpos : scan.positioners with _ | ⟨p0, rest⟩
  · exact ⟨fun p hp => absurd hp (by simp), fun p hp => absurd hp (by simp)⟩
  · rw [verify_scan, hpos, verify_go] at h
    split at h
    · exact absurd h (by simp)
    · rename_i hver
      have hall := verify_go_some_true rest p0.array.length h
      have hmem : ∀ p ∈ p0 :: rest,
          p.verify_array = true ∧ p.array.length = p0.array.length := by
        intro p hp
        rcases List.mem_cons.mp hp with hp | hp
        · subst hp
          exact ⟨bool_not_false hver, rfl⟩
        · exact hall p hp
      constructor
      · intro p hp
        exact (hmem p hp).1
      · intro p hp q hq
        rw [(hmem p hp).2, (hmem q hq).2]

theorem verify_go_false_msg :
    ∀ (l : List Positioner) (o : Option Nat), (verify_go l o).1 = false →
      ∃ m, (verify_go l o).2 = some m := by
  intro l
  induction l with
  | nil => intro o h; exact absurd h (by simp [verify_go])
  | cons p0 rest ih =>
    intro o h
    by_cases hver : p0.verify_array = false
    · rcases o with _ | n
      · rw [verify_go, if_pos hver]
        exact ⟨_, rfl⟩
      · rw [verify_go, if_pos hver]
        exact ⟨_, rfl⟩
    · rcases o with _ | n
      · rw [verify_go, if_neg hver] at h ⊢
        exact ih _ h
      · rw [verify_go, if_neg hver] at h ⊢
        by_cases hlen : p0.array.length ≠ n
        · rw [if_pos hlen]
          exact ⟨_, rfl⟩
        · rw [if_neg hlen] at h ⊢
          exact ih _ h

/-! The point-counter invariant along the loop. -/

theorem runLoop_cpt_chain {scan : Scan} {env : Env} {pfuel N : Nat} :
    ∀ (fuel i : Nat) (s s' : ScanState),
      runLoop scan env pfuel fuel i s = some s' →
      s.npts = N →
      List.Chain' (· ≤ ·) (cptValues s.events) →
      (∀ v ∈ cptValues s.events, v ≤ N) →
      (∀ v ∈ (cptValues s.events).getLast?, v ≤ i + 1) →
      List.Chain' (· ≤ ·) (cptValues s'.events) ∧
      ∀ v ∈ cptValues s'.events, v ≤ N := by
  intro fuel
  induction fuel with
  | zero => intro i s s' h; exact absurd h (by simp [runLoop])
  | succ f ih =>
    intro i s s' h hN hchain hle hlast
    rw [runLoop] at h
    split at h
    · cases h
      exact ⟨hchain, hle⟩
    · split at h
      · cases h
        exact ⟨hchain, hle⟩
      · rename_i hguard
        rcases hbody : runStepPoint scan env pfuel i s with _ | ⟨s1, st⟩ <;>
          rw [hbody] at h
        · exact absurd h (by simp)
        · obtain ⟨⟨t, hev, hall⟩, hnpts, -, -, -⟩ := runStepPoint_some_facts hbody
          have hcv : cptValues s1.events = cptValues s.events ++ [i + 1] := by
            rw [hev, cptValues_append]
            have h2 : cptValues (Event.setCpt (i + 1) :: t) =
                (i + 1) :: cptValues t := by
              simp [cptValues, List.filterMap_cons]
            rw [h2, pointTail_cptValues hall]
          have hi : i < N := by omega
          have hchain1 : List.Chain' (· ≤ ·) (cptValues s1.events) := by
            rw [hcv, List.chain'_append]
            refine ⟨hchain, by simp, ?_⟩
            intro x hx y hy
            simp only [List.head?_cons, Option.mem_def, Option.some.injEq] at hy
            subst hy
            exact hlast x hx
          have hle1 : ∀ v ∈ cptValues s1.events, v ≤ N := by
            intro v hv
            rw [hcv] at hv
            rcases List.mem_append.mp hv with hv | hv
            · exact hle v hv
            · simp only [List.mem_singleton] at hv
              omega
          have hlast1 : ∀ v ∈ (cptValues s1.events).getLast?, v ≤ i + 1 := by
            intro v hv
            rw [hcv, List.getLast?_append_cons] at hv
            simp only [List.getLast?_singleton, Option.mem_def,
                       Option.some.injEq] at hv
            omega
          cases st with
          | broke =>
            cases h
            exact ⟨hchain1, hle1⟩
          | ok =>
            refine ih _ _ _ h (by rw [hnpts, hN]) hchain1 hle1 ?_
            intro v hv
            have := hlast1 v hv
            omega
          | retry => exact ih _ _ _ h (by rw [hnpts, hN]) hchain1 hle1 hlast1

/-! Loop behaviour under specific environments. -/

/-- With no interrupt ever raised and a permanently misfiring point, the
loop never terminates: it retries the same point for ever (`i -= 1` at line
712 undoes every `i += 1`), whatever fuel it is given. -/
theorem runLoop_misfire_none {scan : Scan} {env : Env} {pfuel : Nat}
    (hq : ∀ j, env.stream j = { abort := false, pause := false, resume := false })
    (hg : ∀ a, env.pointGood a = false) :
    ∀ (fuel i : Nat) (s : ScanState), s.abort = false → i < s.npts →
      runLoop scan env pfuel fuel i s = none := by
  intro fuel
  induction fuel with
  | zero => intro i s _ _; rfl
  | succ f ih =>
    intro i s ha hi
    obtain ⟨s', hbody, hab, hnpts, -⟩ := runStepPoint_quiet hq scan pfuel i s
    rw [runLoop, if_neg (by rw [ha]; simp), if_neg (by omega), hbody,
        hg s.attempt]
    exact ih i s' hab (by omega)

/-- With no interrupt ever raised and every point well-formed, the loop
completes and `write_data` is called exactly once per breakpoint index in
`[i, npts)`. -/
theorem runLoop_quiet_writes {scan : Scan} {env : Env} {pfuel : Nat}
    (hq : ∀ j, env.stream j = { abort := false, pause := false, resume := false })
    (hg : ∀ a, env.pointGood a = true) :
    ∀ (fuel i : Nat) (s : ScanState), s.abort = false → i ≤ s.npts →
      s.npts - i < fuel →
      ∃ s', runLoop scan env pfuel fuel i s = some s' ∧
        s'.events.countP isWrite = s.events.countP isWrite +
          (List.range' i (s.npts - i)).countP (fun j => decide (j ∈ scan.breakpoints)) ∧
        s'.abort = false := by
  intro fuel
  induction fuel with
  | zero => intro i s _ _ h; omega
  | succ f ih =>
    intro i s ha hi hfuel
    by_cases hend : s.npts ≤ i
    · refine ⟨s, ?_, ?_, ha⟩
      · rw [runLoop, if_neg (by rw [ha]; simp), if_pos hend]
      · have : s.npts - i = 0 := by omega
        rw [this]
        simp
    · obtain ⟨s1, hbody, hab, hnpts, -, -, -, -, hev⟩ :=
        runStepPoint_quiet hq scan pfuel i s
      rw [hg s.attempt] at hbody hev
      obtain ⟨s', hloop, hcnt, hab'⟩ := ih (i + 1) s1 hab (by omega) (by omega)
      refine ⟨s', ?_, ?_, hab'⟩
      · rw [runLoop, if_neg (by rw [ha]; simp), if_neg hend, hbody]
        exact hloop
      · have hc1 : s1.events.countP isWrite = s.events.countP isWrite +
            (if i ∈ scan.breakpoints then 1 else 0) := by
          rw [hev]
          by_cases hb : i ∈ scan.breakpoints <;>
            simp [hb, List.countP_append, List.countP_cons, isWrite]
        have hrange : s.npts - i = (s1.npts - (i + 1)) + 1 := by
          rw [hnpts]
          omega
        rw [hcnt, hc1, hrange, List.range'_succ, List.countP_cons, hnpts]
        by_cases hb : i ∈ scan.breakpoints
        · simp [hb]
          omega
        · simp [hb]

/-- A pause that the store never clears suspends the loop for ever, whatever
the resume flag says: the pause wait loop of lines 632-635 only exits on a
cleared pause flag or on abort, and `self.resume` is never consulted. -/
theorem pauseWait_pause_forever {env : Env}
    (h : ∀ j, (env.stream j).pause = true ∧ (env.stream j).abort = false) :
    ∀ (n : Nat) (s : ScanState), s.pause = true → pauseWait env n s = none := by
  intro n
  induction n with
  | zero => intro s hs; simp [pauseWait, hs]
  | succ n ih =>
    intro s hs
    rw [pauseWait, if_pos hs]
    have hab : (look_for_interrupts env s).2 = false := by
      rw [look_snd]
      exact (h s.sampleIdx).2
    simp only [hab, Bool.false_eq_true, if_false]
    refine ih _ ?_
    rw [look_fst]
    exact (h s.sampleIdx).1

/-- Once the store clears the pause flag (sample `m` onwards) and abort is
down, the pause wait exits with the scan state otherwise untouched. -/
theorem pauseWait_clears {env : Env} {m : Nat}
    (hab : ∀ j, (env.stream j).abort = false)
    (hp : ∀ j, m ≤ j → (env.stream j).pause = false) :
    ∀ (n : Nat) (s : ScanState), 1 ≤ n → m + 1 ≤ n + s.sampleIdx →
      s.abort = false →
      ∃ s', pauseWait env n s = some s' ∧ s'.events = s.events ∧
        s'.cpt = s.cpt ∧ s'.npts = s.npts ∧ s'.attempt = s.attempt ∧
        s'.counterBuf = s.counterBuf ∧ s'.posActualLen = s.posActualLen ∧
        s'.abort = false := by
  intro n
  induction n with
  | zero => intro s h1 _ _; omega
  | succ n ih =>
    intro s _ h2 habort
    by_cases hps : s.pause = true
    · rw [pauseWait, if_pos hps]
      have hab2 : (look_for_interrupts env s).2 = false := by
        rw [look_snd]
        exact hab s.sampleIdx
      simp only [hab2, Bool.false_eq_true, if_false]
      rcases n with _ | n2
      · have hm : m ≤ s.sampleIdx := by omega
        have hpf : (look_for_interrupts env s).1.pause = false := by
          rw [look_fst]
          exact hp _ hm
        rw [pauseWait, hpf]
        simp only [Bool.false_eq_true, if_false]
        exact ⟨_, rfl, rfl, rfl, rfl, rfl, rfl, rfl, by rw [look_fst]; exact hab _⟩
      · obtain ⟨s', hw, he, hc, hn, hatt, hb, hpa, hab'⟩ :=
          ih (look_for_interrupts env s).1 (by omega)
            (by rw [look_fst]; simp only [ScanState.sampleIdx]; omega)
            (by rw [look_fst]; exact hab _)
        exact ⟨s', hw, he, hc, hn, hatt, hb, hpa, hab'⟩
    · rw [pauseWait, if_neg hps]
      exact ⟨s, rfl, rfl, rfl, rfl, rfl, rfl, rfl, habort⟩

/-- A loop body run while the store clears the pause flag from sample `m` on
(and abort stays down) completes the point `i` it was paused at, exactly
once: one move, one trigger, one counter read. -/
theorem runStepPoint_resume {env : Env} {m : Nat}
    (hab : ∀ j, (env.stream j).abort = false)
    (hp : ∀ j, m ≤ j → (env.stream j).pause = false)
    (scan : Scan) (pfuel i : Nat) (s0 : ScanState) (hpf : m + 1 ≤ pfuel) :
    ∃ s', runStepPoint scan env pfuel i s0 =
        some (s', if env.pointGood s0.attempt then PointStep.ok else PointStep.retry) ∧
      s'.cpt = i + 1 ∧ s'.abort = false ∧ s'.npts = s0.npts ∧
      s'.events = s0.events ++
        [Event.setCpt (i + 1), Event.move i, Event.triggerStart i,
         Event.counterRead i, Event.posActual i] ++
        (if i ∈ scan.breakpoints then [Event.writeData (Int.ofNat i)] else []) ++
        (if env.pointGood s0.attempt then []
         else List.replicate scan.ndetectors (Event.retryPrescan i)) := by
  have hpre := bodyPre_spec env i s0
  have habp : (bodyPre env i s0).abort = false := by
    rw [bodyPre, look_fst]
    exact hab _
  obtain ⟨s3, hw, hwe, hwc, hwn, hwatt, hwb, hwp, hwab⟩ :=
    pauseWait_clears hab hp pfuel (bodyPre env i s0) (by omega) (by omega) habp
  have hmv := bodyMove_spec env s0.attempt i s3
  have hab2 : (bodyMove env s0.attempt i s3).2 = false := by
    rw [bodyMove, look_snd]
    exact hab _
  have hrd := bodyRead_spec scan env s0.attempt i (bodyMove env s0.attempt i s3).1
  refine ⟨(bodyRead scan env s0.attempt i (bodyMove env s0.attempt i s3).1).1,
          ?_, ?_, ?_, ?_, ?_⟩
  · rw [runStepPoint, hw]
    simp only [hab2, Bool.false_eq_true, if_false]
    rw [← hrd.2.2.2.2.2.2.2]
  · rw [hrd.2.1, hmv.2.1, hwc, hpre.2.1]
  · by_cases hg : env.pointGood s0.attempt = true <;>
      by_cases hb : i ∈ scan.breakpoints <;>
        simp [bodyRead, look_fst, hab, hg, hb]
  · rw [hrd.2.2.1, hmv.2.2.1, hwn, hpre.2.2.1]
  · rw [hrd.1, hmv.1, hwe, hpre.1]
    simp

/-- Unfolding one successful loop iteration: after an `ok` body the loop
goes on at `i + 1` with the produced state. -/
theorem runLoop_step_ok {scan : Scan} {env : Env} {pfuel fuel i : Nat}
    {s s' : ScanState} (ha : s.abort = false) (hi : i < s.npts)
    (hb : runStepPoint scan env pfuel i s = some (s', PointStep.ok)) :
    runLoop scan env pfuel (fuel + 1) i s =
      runLoop scan env pfuel fuel (i + 1) s' := by
  rw [runLoop, if_neg (by rw [ha]; simp), if_neg (by omega), hb]

/-! Model of the info table of `lib/scandb.py`: `get_info` (lines 352-390)
and `set_info` (lines 446-458).  The table is the list of its rows; SQL NULL
is `InfoVal.null` and the numeric strings that the engine stores for flags
and counters are `InfoVal.int`. -/

/-- A value stored in the `value` column of the `info` table. -/
inductive InfoVal where
  | null : InfoVal
  | int : Int → InfoVal
deriving Repr, DecidableEq

/-- One row of the `info` table. -/
structure InfoRow where
  key : String
  value : InfoVal
deriving Repr, DecidableEq

/-- What `get_info` hands back, depending on the requested coercion. -/
inductive InfoOut where
  | val : InfoVal → InfoOut
  | int : Int → InfoOut
  | bool : Bool → InfoOut
deriving Repr, DecidableEq

/-- The output coercions of `get_info` (lines 382-387): `as_int` maps the
value through `int(float(out))` with `None` as 0; otherwise `as_bool` maps
it through `bool(int(out))` with `None` as 0; `as_int` takes precedence,
exactly as in the `if`/`elif` chain of the source. -/
def coerceOut (as_int as_bool : Bool) (v : InfoVal) : InfoOut :=
  if as_int then
    InfoOut.int (match v with | InfoVal.null => 0 | InfoVal.int n => n)
  else if as_bool then
    InfoOut.bool (match v with
      | InfoVal.null => false
      | InfoVal.int n => decide (n ≠ 0))
  else InfoOut.val v

/-- `get_info(key, default, as_int, as_bool)` (lines 352-390): the rows with
this key are fetched; `None_or_one` demands zero or one of them (more raise
a `ScanDBException`).  No row: the key is inserted with the default value
and the default is returned.  One row: its value is returned.  Either way
the result passes through the requested coercion.  Returns the output
together with the table after the call. -/
def get_info (table : List InfoRow) (key : String) (default : InfoVal)
    (as_int as_bool : Bool) : Except String (InfoOut × List InfoRow) :=
  match table.filter (fun r => r.key == key) with
  | [] => Except.ok (coerceOut as_int as_bool default,
            table ++ [{ key := key, value := default }])
  | [r] => Except.ok (coerceOut as_int as_bool r.value, table)
  | _ => Except.error ("get_info expected one or no row for key " ++ key)

/-- `set_info(key, value)` (lines 446-458): update the matching row in
place when one exists, insert a new row otherwise (last write wins). -/
def set_info (table : List InfoRow) (key : String) (value : InfoVal) :
    List InfoRow :=
  if table.any (fun r => r.key == key) then
    table.map (fun r => if r.key == key then { r with value := value } else r)
  else table ++ [{ key := key, value := value }]

theorem filter_map_upd (key : String) (v : InfoVal) :
    ∀ table : List InfoRow,
      (table.map (fun r => if r.key == key then { r with value := v } else r)).filter
          (fun r => r.key == key) =
        (table.filter (fun r => r.key == key)).map
          (fun r => if r.key == key then { r with value := v } else r) := by
  intro table
  induction table with
  | nil => rfl
  | cons r rest ih =>
    by_cases hk : (r.key == key) = true
    · have hkey : r.key = key := eq_of_beq hk
      simp [List.filter_cons, List.map_cons, hk, hkey] at ih ⊢
      exact ih
    · have hkey : ¬ r.key = key := by simpa using hk
      simp [List.filter_cons, List.map_cons, hk, hkey] at ih ⊢
      exact ih

theorem filter_set_info (table : List InfoRow) (key : String) (v : InfoVal)
    (huniq : (table.filter (fun r => r.key == key)).length ≤ 1) :
    (set_info table key v).filter (fun r => r.key == key) =
      [{ key := key, value := v }] := by
  rw [set_info]
  by_cases hany : table.any (fun r => r.key == key) = true
  · rw [if_pos hany, filter_map_upd]
    obtain ⟨r0, hr0mem, hr0⟩ := List.any_eq_true.mp hany
    have hlen1 : (table.filter (fun r => r.key == key)).length = 1 := by
      have : r0 ∈ table.filter (fun r => r.key == key) :=
        List.mem_filter.mpr ⟨hr0mem, hr0⟩
      have hpos : 0 < (table.filter (fun r => r.key == key)).length :=
        List.length_pos.mpr (List.ne_nil_of_mem this)
      omega
    obtain ⟨a, ha⟩ := List.length_eq_one.mp hlen1
    have hamem : a ∈ table.filter (fun r => r.key == key) := by
      rw [ha]
      exact List.mem_singleton_self a
    have hak : (a.key == key) = true := (List.mem_filter.mp hamem).2
    rw [ha]
    simp only [List.map_cons, List.map_nil, hak, if_true]
    have : a.key = key := eq_of_beq hak
    rw [List.cons.injEq]
    exact ⟨by rw [← this], rfl⟩
  · rw [if_neg hany, List.filter_append]
    have h1 : table.filter (fun r => r.key == key) = [] := by
      rw [List.filter_eq_nil_iff]
      intro r hr
      intro hk
      exact hany (List.any_eq_true.mpr ⟨r, hr, hk⟩)
    rw [h1]
    simp

/-! Concrete fixtures used by witnesses and counterexamples. -/

/-- A scan with one positioner (two points), one trigger, one counter, one
detector and no breakpoints. -/
def scan1 : Scan :=
  { positioners := [{ pvname := "m1", array := [0, 1], llm := -10, hlm := 10 }],
    ntriggers := 1, ncounters := 1, ndetectors := 1, breakpoints := [] }

/-- Same scan with three points and breakpoints {1}. -/
def scan7 : Scan :=
  { positioners := [{ pvname := "m1", array := [0, 1, 2], llm := -10, hlm := 10 }],
    ntriggers := 1, ncounters := 1, ndetectors := 1, breakpoints := [1] }

/-- A scan whose two positioner arrays have different lengths. -/
def scanBad : Scan :=
  { positioners := [{ pvname := "m1", array := [0, 1], llm := -10, hlm := 10 },
                    { pvname := "m2", array := [0, 1, 2], llm := -10, hlm := 10 }],
    ntriggers := 1, ncounters := 1, ndetectors := 1, breakpoints := [] }

/-- A store in which no interrupt flag is ever raised; hardware always
completes and every point passes the misfire check. -/
def envQuiet : Env :=
  { stream := fun _ => { abort := false, pause := false, resume := false },
    posPolls := fun _ => 0, pointGood := fun _ => true }

/-- A store whose abort flag is set from the very start and stays set. -/
def envAbort : Env :=
  { stream := fun _ => { abort := true, pause := false, resume := false },
    posPolls := fun _ => 0, pointGood := fun _ => true }

/-- A store holding pause and resume raised together, abort down, for ever:
the situation of a client that sets `request_resume` without clearing
`request_pause`. -/
def envResume : Env :=
  { stream := fun _ => { abort := false, pause := true, resume := true },
    posPolls := fun _ => 0, pointGood := fun _ => false }

/-- Quiet store, but every point fails the misfire check for ever. -/
def envMisfire : Env :=
  { stream := fun _ => { abort := false, pause := false, resume := false },
    posPolls := fun _ => 0, pointGood := fun _ => false }

/-- Quiet store; only the very first attempt misfires. -/
def envRetryOnce : Env :=
  { stream := fun _ => { abort := false, pause := false, resume := false },
    posPolls := fun _ => 0, pointGood := fun a => decide (a ≠ 0) }

/-- A scan state sitting in the paused wait. -/
def sPaused : ScanState := { initState with pause := true }

/-- Extract the state carried by a preparation outcome. -/
def prepStateOf : PrepResult → ScanState
  | PrepResult.ok s => s
  | PrepResult.validationError _ s => s
  | PrepResult.emptyPositioners s => s

/-- Extract the result of a finished run (fallback: an empty result). -/
def resultOf : Option RunOutcome → RunResult
  | some (RunOutcome.result r) => r
  | _ => { state := initState, aborted := false }

/-- Extract the state of a loop-body outcome. -/
def stepStateOf : Option (ScanState × PointStep) → ScanState
  | some (s, _) => s
  | none => initState

/-! Unfolding `run_stepscan` by preparation outcome. -/

theorem run_stepscan_ok {scan : Scan} {env : Env} {pfuel fuel : Nat}
    {s0 : ScanState} (hprep : prepare_stepscan scan = PrepResult.ok s0) :
    run_stepscan scan env pfuel fuel =
      match runLoop scan env pfuel fuel 0 s0 with
      | none => none
      | some s1 => some (RunOutcome.result (finish_stepscan scan env s1)) := by
  rw [run_stepscan, hprep]

theorem run_stepscan_vErr {scan : Scan} {env : Env} {pfuel fuel : Nat}
    {m : String} {s : ScanState}
    (hprep : prepare_stepscan scan = PrepResult.validationError m s) :
    run_stepscan scan env pfuel fuel =
      some (RunOutcome.validationError m s) := by
  rw [run_stepscan, hprep]

theorem run_stepscan_empty {scan : Scan} {env : Env} {pfuel fuel : Nat}
    {s : ScanState}
    (hprep : prepare_stepscan scan = PrepResult.emptyPositioners s) :
    run_stepscan scan env pfuel fuel =
      some (RunOutcome.emptyPositioners s) := by
  rw [run_stepscan, hprep]

/-! The claims. -/

/-- Claim C1: for every run of the step-scan loop in which the abort flag
becomes set (and, being a persisted store flag, stays set) during Running or
Paused, the run reaches the cleanup path exactly once — a non-blocking
return-to-original-position move is issued for every positioner and the
output file receives exactly one final close-and-flush write — and the run
produces the distinguished aborted outcome (`ScanDBAbort`) without running
any post-scan hook.  The flag being set during the loop is expressed as:
the abort flag holds from store sample `k` on, and the loop consumed a
sample at or past `k` (`k + 1 ≤ r.state.sampleIdx`). -/
theorem claim1_abort_cleanup (scan : Scan) (env : Env) (k pfuel fuel : Nat)
    (s0 : ScanState)
    (hprep : prepare_stepscan scan = PrepResult.ok s0)
    (hst : ∀ j, k ≤ j → (env.stream j).abort = true)
    (hpf : k + 1 ≤ pfuel) (hf : k + 1 ≤ fuel) :
    (∃ r, run_stepscan scan env pfuel fuel = some (RunOutcome.result r)) ∧
    (∀ r, run_stepscan scan env pfuel fuel = some (RunOutcome.result r) →
      k + 1 ≤ r.state.sampleIdx →
      r.aborted = true ∧
      r.state.events.countP isFinalWrite = 1 ∧
      r.state.events.countP isReturnMove = scan.positioners.length ∧
      r.state.events.countP isPostHook = 0) := by
  have hpfacts := prepare_ok_facts hprep
  have hidx0 : s0.sampleIdx = 0 := hpfacts.1
  constructor
  · have hsome : (runLoop scan env pfuel fuel 0 s0).isSome :=
      runLoop_sticky_some hst hpf fuel 0 s0 (by omega) (by omega)
    rcases hl : runLoop scan env pfuel fuel 0 s0 with _ | s1
    · rw [hl] at hsome
      exact absurd hsome (by simp)
    · exact ⟨finish_stepscan scan env s1, by rw [run_stepscan_ok hprep, hl]⟩
  · intro r hr hk2
    rw [run_stepscan_ok hprep] at hr
    rcases hl : runLoop scan env pfuel fuel 0 s0 with _ | s1 <;> rw [hl] at hr
    · exact absurd hr (by simp)
    · have hreq : finish_stepscan scan env s1 = r :=
        RunOutcome.result.inj (Option.some.inj hr)
      subst hreq
      have hfin := finish_spec scan env s1
      have hloop := runLoop_counts fuel 0 s0 s1 hl
      have habfin : (env.stream s1.sampleIdx).abort = true := by
        apply hst
        have := hfin.2.1
        omega
      refine ⟨by rw [hfin.1, habfin], ?_, ?_, ?_⟩
      · rw [hfin.2.2.2.1, hloop.2.2.1, hpfacts.2.2.2.2.2.2.2.2.1]
      · rw [hfin.2.2.2.2.1, hloop.2.2.2.1, hpfacts.2.2.2.2.2.2.2.2.2.1]
        omega
      · rw [hfin.2.2.2.2.2.1, hloop.2.2.2.2, hpfacts.2.2.2.2.2.2.2.2.2.2.1,
            habfin]
        simp

/-- Witness for C1 at a concrete input: one positioner, abort raised from
the first sample on; the run aborts, with one final write, one return move
and no post-scan hook. -/
theorem claim1_abort_cleanup_witness :
    (resultOf (run_stepscan scan1 envAbort 1 1)).aborted = true ∧
    (resultOf (run_stepscan scan1 envAbort 1 1)).state.events.countP
      isFinalWrite = 1 ∧
    (resultOf (run_stepscan scan1 envAbort 1 1)).state.events.countP
      isReturnMove = scan1.positioners.length ∧
    (resultOf (run_stepscan scan1 envAbort 1 1)).state.events.countP
      isPostHook = 0 :=
  (claim1_abort_cleanup scan1 envAbort 0 1 1
      (prepStateOf (prepare_stepscan scan1)) rfl (fun _ _ => rfl)
      (by decide) (by decide)).2
    (resultOf (run_stepscan scan1 envAbort 1 1)) rfl (by decide)

/-- Claim C2 (code bug): the source imposes no bound on misfire retries.
On a scan with at least one point whose trigger never reports done within
the dwelltime threshold (the misfire check fails on every attempt) and no
interrupt raised, `run_stepscan` retries point 0 for ever: it returns
`none` whatever fuel it is given, for every pause fuel — there is no retry
counter anywhere in the state. -/
theorem claim2_misfire_unbounded :
    ∀ pfuel fuel : Nat, run_stepscan scan1 envMisfire pfuel fuel = none := by
  intro pfuel fuel
  have hprep : prepare_stepscan scan1 =
      PrepResult.ok (prepStateOf (prepare_stepscan scan1)) := rfl
  rw [run_stepscan_ok hprep,
      runLoop_misfire_none (fun _ => rfl) (fun _ => rfl) fuel 0
        (prepStateOf (prepare_stepscan scan1)) rfl (by decide)]

/-- Claim C3: if validation fails — positioner target sequences of unequal
length, or a target outside the configured soft limits — the run is
rejected before any side effect: `verify_scan` returns false, a descriptive
validation error is recorded (`set_error` at lines 361 and 367), the run
stops in `prepare_stepscan` and the event trace is empty: no move, no
trigger, no counter read. -/
theorem claim3_validation_rejected (scan : Scan) (env : Env)
    (pfuel fuel : Nat)
    (h : (∃ p ∈ scan.positioners, p.verify_array = false) ∨
         (∃ p ∈ scan.positioners, ∃ q ∈ scan.positioners,
            p.array.length ≠ q.array.length)) :
    (verify_scan scan).1 = false ∧
    ∃ msg, (verify_scan scan).2 = some msg ∧
      run_stepscan scan env pfuel fuel =
        some (RunOutcome.validationError msg initState) ∧
      initState.events = [] := by
  have hfalse : (verify_scan scan).1 = false := by
    rcases hb : (verify_scan scan).1
    · rfl
    · exfalso
      have hl := verify_true_lengths hb
      rcases h with ⟨p, hp, hbad⟩ | ⟨p, hp, q, hq, hne⟩
      · rw [hl.1 p hp] at hbad
        exact absurd hbad (by simp)
      · exact hne (hl.2 p hp q hq)
  have hmsg : ∃ m, (verify_scan scan).2 = some m := by
    rw [verify_scan] at hfalse ⊢
    exact verify_go_false_msg _ _ hfalse
  obtain ⟨m, hm⟩ := hmsg
  refine ⟨hfalse, m, hm, ?_, rfl⟩
  rw [run_stepscan_vErr (prepare_verify_false hfalse), hm]
  rfl

/-- Witness for C3: two positioners with arrays of length 2 and 3; the run
is rejected with the inconsistent-length message and an empty trace. -/
theorem claim3_validation_rejected_witness :
    (verify_scan scanBad).1 = false ∧
    ∃ msg, (verify_scan scanBad).2 = some msg ∧
      run_stepscan scanBad envQuiet 5 5 =
        some (RunOutcome.validationError msg initState) ∧
      initState.events = [] :=
  claim3_validation_rejected scanBad envQuiet 5 5 (by decide)

/-- Claim C4: throughout every run, the successive values assigned to `cpt`
form a non-decreasing sequence (even across misfire retries: the retried
attempt re-assigns the same `i + 1`), and `cpt` never exceeds `npts`. -/
theorem claim4_cpt_monotone (scan : Scan) (env : Env) (pfuel fuel : Nat)
    (r : RunResult)
    (h : run_stepscan scan env pfuel fuel = some (RunOutcome.result r)) :
    List.Chain' (· ≤ ·) (cptValues r.state.events) ∧
    ∀ v ∈ cptValues r.state.events, v ≤ r.state.npts := by
  rcases hprep : prepare_stepscan scan with s0 | ⟨m, s⟩ | s
  case validationError =>
    rw [run_stepscan_vErr hprep] at h
    exact absurd h (by simp)
  case emptyPositioners =>
    rw [run_stepscan_empty hprep] at h
    exact absurd h (by simp)
  · rw [run_stepscan_ok hprep] at h
    rcases hl : runLoop scan env pfuel fuel 0 s0 with _ | s1 <;> rw [hl] at h
    · exact absurd h (by simp)
    · have hreq : finish_stepscan scan env s1 = r :=
        RunOutcome.result.inj (Option.some.inj h)
      subst hreq
      have hpfacts := prepare_ok_facts hprep
      have hcv0 : cptValues s0.events = [0] := hpfacts.2.2.2.2.2.2.2.1
      have hchain := runLoop_cpt_chain fuel 0 s0 s1 hl rfl
        (by rw [hcv0]; simp)
        (by rw [hcv0]; intro v hv; simp at hv; omega)
        (by rw [hcv0]; intro v hv; simp at hv; omega)
      have hfin := finish_spec scan env s1
      have hnpts : (finish_stepscan scan env s1).state.npts = s0.npts :=
        by rw [hfin.2.2.1, (runLoop_counts fuel 0 s0 s1 hl).1]
      refine ⟨by rw [hfin.2.2.2.2.2.2.1]; exact hchain.1, ?_⟩
      intro v hv
      rw [hfin.2.2.2.2.2.2.1] at hv
      have hb := hchain.2 v hv
      have : s0.npts ≤ (finish_stepscan scan env s1).state.npts := by
        rw [hnpts]
      omega

/-- Witness for C4 on a concrete quiet run. -/
theorem claim4_cpt_monotone_witness :
    List.Chain' (· ≤ ·)
      (cptValues (resultOf (run_stepscan scan1 envQuiet 5 9)).state.events) ∧
    ∀ v ∈ cptValues (resultOf (run_stepscan scan1 envQuiet 5 9)).state.events,
      v ≤ (resultOf (run_stepscan scan1 envQuiet 5 9)).state.npts :=
  claim4_cpt_monotone scan1 envQuiet 5 9
    (resultOf (run_stepscan scan1 envQuiet 5 9)) rfl

/-- Counterexample to claim C5 as stated: in a run whose very first store
sample (the `look_for_interrupts()` of line 630, at the start of point 0)
reads abort = true, the move and the trigger for point 0 are issued all the
same — the trace contains both — contradicting "the loop exits immediately:
no positioner move is issued and no trigger is started for point i". -/
theorem claim5_counterexample :
    (envAbort.stream 0).abort = true ∧
    Event.move 0 ∈ (resultOf (run_stepscan scan1 envAbort 1 1)).state.events ∧
    Event.triggerStart 0 ∈
      (resultOf (run_stepscan scan1 envAbort 1 1)).state.events := by
  refine ⟨rfl, by decide, by decide⟩

/-- Claim C5 as amended: at the start of every point `i` the interrupt flags
are sampled, but abort observed at that sample does not exit the loop
immediately — the move and the trigger for point `i` are still issued; the
loop leaves the body at the post-trigger-wait sample (line 670), so the
body ends `broke` with exactly `cpt := i+1`, the move and the trigger in
the trace, and in particular no counter read for point `i`. -/
theorem claim5_amended (scan : Scan) (env : Env) (k pfuel i : Nat)
    (s0 : ScanState)
    (hst : ∀ j, k ≤ j → (env.stream j).abort = true)
    (hk : k ≤ s0.sampleIdx) (hpf : 1 ≤ pfuel) :
    ∃ s', runStepPoint scan env pfuel i s0 = some (s', PointStep.broke) ∧
      s'.events = s0.events ++
        [Event.setCpt (i + 1), Event.move i, Event.triggerStart i] := by
  obtain ⟨s', hb⟩ := runStepPoint_sticky_broke hst scan pfuel i s0 hk hpf
  obtain ⟨-, -, -, -, -, hbroke, -, -, -⟩ := runStepPoint_some_facts hb
  exact ⟨s', hb, (hbroke rfl).2.2⟩

/-- Witness for the amended C5 at a concrete input. -/
theorem claim5_amended_witness :
    ∃ s', runStepPoint scan1 envAbort 1 0
        (prepStateOf (prepare_stepscan scan1)) = some (s', PointStep.broke) ∧
      s'.events = (prepStateOf (prepare_stepscan scan1)).events ++
        [Event.setCpt 1, Event.move 0, Event.triggerStart 0] :=
  claim5_amended scan1 envAbort 0 1 0 (prepStateOf (prepare_stepscan scan1))
    (fun _ _ => rfl) (by decide) (by decide)

/-- Counterexample to claim C6 as stated: with the store holding pause and
resume raised together (abort down) for ever — i.e. the resume flag set
alone, without clearing pause — the loop does not continue: the pause wait
spins until its fuel is gone and the run never gets past the paused point.
`self.resume` is read by `look_for_interrupts` but never used. -/
theorem claim6_counterexample :
    (envResume.stream 0).resume = true ∧ (envResume.stream 0).pause = true ∧
    (envResume.stream 0).abort = false ∧
    pauseWait envResume 6 sPaused = none ∧
    run_stepscan scan1 envResume 6 6 = none :=
  ⟨rfl, rfl, rfl, rfl, rfl⟩

/-- Claim C6 as amended: setting pause during Running halts `cpt`
advancement until the pause flag itself is cleared or abort is set — while
the store keeps pause raised and abort down, the pause wait never returns,
whatever the resume flag says (the source reads `self.resume` but never
consults it).  Once the store clears the pause flag (with no abort), the
loop continues from exactly the point it paused at: the body completes that
point with one move, one trigger and one counter read, and the loop then
advances to `i + 1` — no point repeated or skipped. -/
theorem claim6_amended :
    (∀ (env : Env) (n : Nat) (s : ScanState), s.pause = true →
       (∀ j, (env.stream j).pause = true ∧ (env.stream j).abort = false) →
       pauseWait env n s = none) ∧
    (∀ (env : Env) (m : Nat), (∀ j, (env.stream j).abort = false) →
       (∀ j, m ≤ j → (env.stream j).pause = false) →
       ∀ (scan : Scan) (pfuel fuel i : Nat) (s0 : ScanState),
         m + 1 ≤ pfuel → env.pointGood s0.attempt = true →
         ∃ s', runStepPoint scan env pfuel i s0 = some (s', PointStep.ok) ∧
           s'.cpt = i + 1 ∧
           s'.events = s0.events ++
             [Event.setCpt (i + 1), Event.move i, Event.triggerStart i,
              Event.counterRead i, Event.posActual i] ++
             (if i ∈ scan.breakpoints then [Event.writeData (Int.ofNat i)]
              else []) ∧
           (s0.abort = false → i < s0.npts →
              runLoop scan env pfuel (fuel + 1) i s0 =
                runLoop scan env pfuel fuel (i + 1) s')) := by
  constructor
  · intro env n s hs hstream
    exact pauseWait_pause_forever hstream n s hs
  · intro env m hab hp scan pfuel fuel i s0 hpf hgood
    obtain ⟨s', hbody, hcpt, hab', hnpts, hev⟩ :=
      runStepPoint_resume hab hp scan pfuel i s0 hpf
    have hstep : (if env.pointGood s0.attempt = true then PointStep.ok
        else PointStep.retry) = PointStep.ok := by
      simp [hgood]
    rw [hstep] at hbody
    simp only [hgood, if_true, List.append_nil] at hev
    refine ⟨s', hbody, hcpt, hev, ?_⟩
    intro hab0 hi
    exact runLoop_step_ok hab0 hi hbody

/-- Witness for the amended C6: the pause wait spins for ever under
pause-with-resume; under a store with pause clear, the body completes
point 0 of the two-point scan and the loop moves on to point 1. -/
theorem claim6_amended_witness :
    pauseWait envResume 5 sPaused = none ∧
    (∃ s', runStepPoint scan1 envQuiet 1 0
        (prepStateOf (prepare_stepscan scan1)) = some (s', PointStep.ok) ∧
      s'.cpt = 0 + 1 ∧
      s'.events = (prepStateOf (prepare_stepscan scan1)).events ++
        [Event.setCpt (0 + 1), Event.move 0, Event.triggerStart 0,
         Event.counterRead 0, Event.posActual 0] ++
        (if 0 ∈ scan1.breakpoints then [Event.writeData (Int.ofNat 0)]
         else []) ∧
      ((prepStateOf (prepare_stepscan scan1)).abort = false →
       0 < (prepStateOf (prepare_stepscan scan1)).npts →
       runLoop scan1 envQuiet 1 (3 + 1) 0 (prepStateOf (prepare_stepscan scan1)) =
         runLoop scan1 envQuiet 1 3 (0 + 1) s')) :=
  ⟨claim6_amended.1 envResume 5 sPaused rfl (fun _ => ⟨rfl, rfl⟩),
   claim6_amended.2 envQuiet 0 (fun _ => rfl) (fun _ _ => rfl) scan1 1 3 0
     (prepStateOf (prepare_stepscan scan1)) (by decide) rfl⟩

/-- Counterexample to claim C7 as stated: on a quiet two-point run with an
empty breakpoint set, the claim predicts exactly `|B reached| + 1 = 1`
`write_data` invocation, but the trace holds 2 — the source also writes the
file once from `prepare_stepscan` (line 571) before the loop starts. -/
theorem claim7_counterexample :
    scan1.breakpoints = [] ∧
    (resultOf (run_stepscan scan1 envQuiet 5 9)).aborted = false ∧
    (resultOf (run_stepscan scan1 envQuiet 5 9)).state.events.countP isWrite
      = 2 ∧
    (resultOf (run_stepscan scan1 envQuiet 5 9)).state.events.countP isWrite
      ≠ (List.range' 0 (resultOf (run_stepscan scan1 envQuiet 5 9)).state.npts).countP
          (fun j => decide (j ∈ scan1.breakpoints)) + 1 :=
  ⟨rfl, by decide, by decide, by decide⟩

/-- Claim C7 as amended: on a run with no interrupts and no misfires,
`write_data` is invoked exactly once per breakpoint index actually reached,
plus one initial invocation at preparation (breakpoint index 0) and exactly
one terminal close-and-flush invocation: `|B ∩ [0, npts)| + 2` in total. -/
theorem claim7_amended (scan : Scan) (env : Env) (pfuel fuel : Nat)
    (s0 : ScanState)
    (hq : ∀ j, env.stream j = { abort := false, pause := false, resume := false })
    (hg : ∀ a, env.pointGood a = true)
    (hprep : prepare_stepscan scan = PrepResult.ok s0)
    (hfuel : s0.npts < fuel) :
    ∃ r, run_stepscan scan env pfuel fuel = some (RunOutcome.result r) ∧
      r.aborted = false ∧
      r.state.events.countP isWrite =
        (List.range' 0 s0.npts).countP
          (fun j => decide (j ∈ scan.breakpoints)) + 2 := by
  have hpfacts := prepare_ok_facts hprep
  obtain ⟨s1, hl, hcnt, hab1⟩ :=
    runLoop_quiet_writes hq hg fuel 0 s0 hpfacts.2.1 (by omega) (by omega)
  rw [Nat.sub_zero] at hcnt
  have hfin := finish_spec scan env s1
  refine ⟨finish_stepscan scan env s1, by rw [run_stepscan_ok hprep, hl], ?_, ?_⟩
  · rw [hfin.1, hq s1.sampleIdx]
  · rw [hfin.2.2.2.2.2.2.2, hcnt, hpfacts.2.2.2.2.2.2.2.2.2.2.2]
    omega

/-- Witness for the amended C7: three points, breakpoints {1}: write count
is 1 + 2 = 3. -/
theorem claim7_amended_witness :
    ∃ r, run_stepscan scan7 envQuiet 5 9 = some (RunOutcome.result r) ∧
      r.aborted = false ∧
      r.state.events.countP isWrite =
        (List.range' 0 (prepStateOf (prepare_stepscan scan7)).npts).countP
          (fun j => decide (j ∈ scan7.breakpoints)) + 2 :=
  claim7_amended scan7 envQuiet 5 9 (prepStateOf (prepare_stepscan scan7))
    (fun _ => rfl) (fun _ => rfl) rfl (by decide)

/-- Claim C8: for every key absent from the info table, `get_info` creates
the key with the caller-supplied default and returns that default, coerced
to integer or boolean when requested; for a present key (uniquely stored,
as `None_or_one` demands) it returns the latest stored value — after
`set_info key v`, `get_info` returns `v` under the same coercions. -/
theorem claim8_get_info (table : List InfoRow) (key : String)
    (default v : InfoVal) (ai ab : Bool)
    (huniq : (table.filter (fun r => r.key == key)).length ≤ 1) :
    ((∀ r ∈ table, (r.key == key) = false) →
       get_info table key default ai ab =
         Except.ok (coerceOut ai ab default,
           table ++ [{ key := key, value := default }])) ∧
    get_info (set_info table key v) key default ai ab =
      Except.ok (coerceOut ai ab v, set_info table key v) := by
  constructor
  · intro habsent
    have hfil : table.filter (fun r => r.key == key) = [] := by
      rw [List.filter_eq_nil_iff]
      intro r hr
      rw [habsent r hr]
      simp
    rw [get_info, hfil]
  · rw [get_info, filter_set_info table key v huniq]

/-- A one-row info table for the C8 witness. -/
def table1 : List InfoRow := [{ key := "a", value := InfoVal.int 1 }]

/-- Witness for C8 on a concrete table: the key is absent, the default is
inserted and returned as a boolean; after `set_info`, the stored value is
returned. -/
theorem claim8_get_info_witness :
    ((∀ r ∈ table1, (r.key == "request_abort") = false) →
       get_info table1 "request_abort" (InfoVal.int 0) false true =
         Except.ok (coerceOut false true (InfoVal.int 0),
           table1 ++ [{ key := "request_abort", value := InfoVal.int 0 }])) ∧
    get_info (set_info table1 "request_abort" (InfoVal.int 1))
        "request_abort" (InfoVal.int 0) false true =
      Except.ok (coerceOut false true (InfoVal.int 1),
        set_info table1 "request_abort" (InfoVal.int 1)) :=
  claim8_get_info table1 "request_abort" (InfoVal.int 0) (InfoVal.int 1)
    false true (by decide)

/-- Claim C9: `verify_scan` returns true for a scan whose positioner list is
empty (the length and soft-limit checks pass vacuously), and
`prepare_stepscan` then reaches the unconditional indexing of the first
positioner (`self.positioners[0]`, line 539) which raises `IndexError`, the
`emptyPositioners` outcome here — still with an empty event trace, since
the `move_to_start` batch over zero positioners issued nothing. -/
theorem claim9_empty_positioners (nt nc nd : Nat) (B : List Nat) :
    (verify_scan { positioners := [], ntriggers := nt, ncounters := nc,
                   ndetectors := nd, breakpoints := B }).1 = true ∧
    ∃ st, prepare_stepscan
        { positioners := [], ntriggers := nt, ncounters := nc,
          ndetectors := nd, breakpoints := B } =
        PrepResult.emptyPositioners st ∧ st.events = [] :=
  prepare_empty rfl

/-- Claim C10: a point that fails the misfire check still has its counters
read and its actual positioner values appended before the retry — every
`retry` body adds one entry to each buffer — so a run with a misfired
attempt ends with buffers longer than `npts`: concretely, a two-point scan
whose first attempt misfires ends with `counterBuf = posActualLen = 3`. -/
theorem claim10_retry_reads :
    (∀ (scan : Scan) (env : Env) (pfuel i : Nat) (s0 s' : ScanState),
       runStepPoint scan env pfuel i s0 = some (s', PointStep.retry) →
       s'.counterBuf = s0.counterBuf + 1 ∧
       s'.posActualLen = s0.posActualLen + 1) ∧
    ((resultOf (run_stepscan scan1 envRetryOnce 5 9)).state.npts = 2 ∧
     (resultOf (run_stepscan scan1 envRetryOnce 5 9)).state.counterBuf = 3 ∧
     (resultOf (run_stepscan scan1 envRetryOnce 5 9)).state.posActualLen = 3) := by
  constructor
  · intro scan env pfuel i s0 s' h
    exact (runStepPoint_some_facts h).2.2.2.2.2.2.1 (by simp)
  · exact ⟨by decide, by decide, by decide⟩

/-- Witness for C10 part one at a concrete misfiring body run. -/
theorem claim10_retry_reads_witness :
    (stepStateOf (runStepPoint scan1 envMisfire 1 0
        (prepStateOf (prepare_stepscan scan1)))).counterBuf =
      (prepStateOf (prepare_stepscan scan1)).counterBuf + 1 ∧
    (stepStateOf (runStepPoint scan1 envMisfire 1 0
        (prepStateOf (prepare_stepscan scan1)))).posActualLen =
      (prepStateOf (prepare_stepscan scan1)).posActualLen + 1 :=
  claim10_retry_reads.1 scan1 envMisfire 1 0
    (prepStateOf (prepare_stepscan scan1))
    (stepStateOf (runStepPoint scan1 envMisfire 1 0
      (prepStateOf (prepare_stepscan scan1)))) rfl

end StepScan
